import Mathlib

/-!
Verification of the borb/ptext core against its design specification.

The development shallowly embeds three modules:

* `ptext/tranform/font/default_font_dictionary_transformer.py`
  (`DefaultFontDictionaryTransformer.can_be_transformed` / `.transform`),
* `borb/pdf/canvas/layout/text/chunk_of_text.py`
  (`ChunkOfText._get_font_resource_name`, `._write_text_bytes`,
  `._write_text_bytes_in_hex`, `._write_text_bytes_in_ascii`,
  `._do_layout_without_padding`),
* `borb/toolkit/location/location_filter.py`
  (`LocationFilter._event_occurred`, `.add_listener`).

Python exceptions are modelled with `Except`; `Decimal` arithmetic with `ℚ`;
text with `List Char` (`ord` is `Char.toNat`).  External collaborators
(the root transformer, the glyph-metrics provider, event listeners, font
identity) are parameters of the embedding, exactly as the spec declares them
out of scope.
-/

set_option autoImplicit false

namespace Spec2Proof

/-! ## Fonts as seen by `ChunkOfText`

A `Font` exposes `unicode_to_character_identifier` (here `cid`), which returns
the font-specific character identifier for a unicode character or `none` when
the font cannot represent it, and `get_font_name` (here `fontName`). -/

structure CFont where
  fontName : String
  cid : Char → Option Nat

/-! ## `ChunkOfText._write_text_bytes` and helpers -/

namespace ChunkOfText

/-- Python `oct(n)[2:]`: the base-8 digits of `n`, no padding. -/
def octStr (n : Nat) : String :=
  String.mk (Nat.toDigits 8 n)

/-- Python `hex(n)[2:]`: the base-16 digits of `n` (lowercase), no padding. -/
def hexStr (n : Nat) : String :=
  String.mk (Nat.toDigits 16 n)

/-- The per-character escaping performed by the loop body of
`ChunkOfText._write_text_bytes_in_ascii` (chunk_of_text.py lines 139-157). -/
def escapeChar (c : Char) : String :=
  if c = '\r' then "\\r"
  else if c = '\n' then "\\n"
  else if c = '\t' then "\\t"
  else if c = Char.ofNat 8 then "\\b"
  else if c = Char.ofNat 12 then "\\f"
  else if c = '(' ∨ c = ')' ∨ c = '\\' then "\\" ++ String.mk [c]
  else if c.toNat < 8 then "\\00" ++ octStr c.toNat
  else if 8 ≤ c.toNat ∧ c.toNat < 32 then "\\0" ++ octStr c.toNat
  else String.mk [c]

/-- `ChunkOfText._write_text_bytes_in_ascii` (chunk_of_text.py lines 134-159):
escape every character, wrap in parentheses and append the `Tj` operator. -/
def writeTextBytesInAscii (text : List Char) : String :=
  "(" ++ String.join (text.map escapeChar) ++ ") Tj"

/-- One `<..>` group of `ChunkOfText._write_text_bytes_in_hex`: the identifier
in lowercase hex, left-padded with one `0` if the digit count is odd
(chunk_of_text.py lines 128-131). -/
def hexGroup (cid : Nat) : String :=
  let hexRep := hexStr cid
  let hexRep := if hexRep.length % 2 = 1 then "0" ++ hexRep else hexRep
  "<" ++ hexRep ++ ">"

/-- `ChunkOfText._write_text_bytes_in_hex` (chunk_of_text.py lines 120-132).
The Python `assert cid is not None` is modelled as an `Except.error` carrying
the assertion message. -/
def writeTextBytesInHex (font : CFont) (text : List Char) : Except String String :=
  (go text "").map (fun sOut => "[" ++ sOut ++ "] TJ")
where
  go : List Char → String → Except String String
  | [], sOut => .ok sOut
  | c :: rest, sOut =>
      match font.cid c with
      | none =>
          .error ("Font " ++ font.fontName ++ " can not represent '" ++
            String.mk [c] ++ "'")
      | some cid => go rest (sOut ++ hexGroup cid)

/-- The mode-selection loop of `ChunkOfText._write_text_bytes`
(chunk_of_text.py lines 110-114): scan the text and switch to hex mode as soon
as one character's identifier differs from its code point (a missing
identifier, Python `None`, also differs from `ord(c)`). -/
def hexMode (font : CFont) (text : List Char) : Bool :=
  text.any (fun c => font.cid c ≠ some c.toNat)

/-- `ChunkOfText._write_text_bytes` (chunk_of_text.py lines 109-118). -/
def writeTextBytes (font : CFont) (text : List Char) : Except String String :=
  if hexMode font text then writeTextBytesInHex font text
  else .ok (writeTextBytesInAscii text)

end ChunkOfText

/-! ## Spec-side escape table (§4.2 literal mode, property 3)

`escapeCharSpec` follows the wording of the spec: the five named control
characters get their two-character escapes, the three delimiters get a
backslash prefix, code points below 8 get a backslash plus a zero-padded
3-digit octal, code points 8-31 a backslash plus the octal with one fewer
leading zero, and everything else passes through. -/

/-- The base-8 digits of `n` left-padded with `'0'` to 3 digits. -/
def octPad3 (n : Nat) : String :=
  String.mk (List.replicate (3 - (Nat.toDigits 8 n).length) '0' ++ Nat.toDigits 8 n)

/-- Escape table as the spec words it (one branch per spec clause). -/
def escapeCharSpec (c : Char) : String :=
  if c = '\r' then "\\r"
  else if c = '\n' then "\\n"
  else if c = '\t' then "\\t"
  else if c = Char.ofNat 8 then "\\b"
  else if c = Char.ofNat 12 then "\\f"
  else if c = '(' ∨ c = ')' ∨ c = '\\' then "\\" ++ String.mk [c]
  else if c.toNat < 8 then "\\" ++ octPad3 c.toNat
  else if 8 ≤ c.toNat ∧ c.toNat < 32 then "\\" ++ octPad3 c.toNat
  else String.mk [c]

/-! ## `LocationFilter` (borb/toolkit/location/location_filter.py)

`Rectangle` (borb.pdf.canvas.geometry.rectangle) carries `Decimal`
coordinates, modelled with `ℚ`.  Events are the three kinds the filter
distinguishes: `ChunkOfTextRenderEvent` (whose `get_bounding_box` is
`Optional`), `ImageRenderEvent` (with `get_x`/`get_y`), and anything else.
Downstream listeners are opaque values; `eventOccurred` returns the list of
listeners whose `_event_occurred` is invoked with the event, in invocation
order, or an error for the failed `assert bb is not None`. -/

structure Rectangle where
  x : ℚ
  y : ℚ
  width : ℚ
  height : ℚ
deriving DecidableEq, Repr

inductive Event where
  | chunkOfTextRender (boundingBox : Option Rectangle)
  | imageRender (x y : ℚ)
  | other (tag : Nat)
deriving DecidableEq, Repr

namespace LocationFilter

/-- The state built by `LocationFilter.__init__`: the filter rectangle and the
ordered downstream listener list. -/
structure State (L : Type) where
  rectangle : Rectangle
  listeners : List L

/-- `LocationFilter.add_listener`: appends and returns the (updated) filter. -/
def addListener {L : Type} (s : State L) (l : L) : State L :=
  { s with listeners := s.listeners ++ [l] }

/-- `LocationFilter._event_occurred` (location_filter.py lines 33-60),
returning the listeners the event is forwarded to, in registration order. -/
def eventOccurred {L : Type} (s : State L) (e : Event) : Except String (List L) :=
  match e with
  | .chunkOfTextRender bb =>
      match bb with
      | none => .error "assert bb is not None"
      | some b =>
          if s.rectangle.x < b.x ∧ b.x < s.rectangle.x + s.rectangle.width ∧
             s.rectangle.y < b.y ∧ b.y < s.rectangle.y + s.rectangle.height then
            .ok s.listeners
          else
            .ok []
  | .imageRender ex ey =>
      if s.rectangle.x < ex ∧ ex < s.rectangle.x + s.rectangle.width ∧
         s.rectangle.y < ey ∧ ey < s.rectangle.y + s.rectangle.height then
        .ok s.listeners
      else
        .ok []
  | .other _ => .ok s.listeners

end LocationFilter

/-! ## Font resource registration (`ChunkOfText._get_font_resource_name`)

Fonts stored in a page's `Resources/Font` sub-dictionary are opaque objects
compared by Python `==`; they are modelled by an arbitrary type `F` with
decidable equality.  A Python `dict` preserves insertion order, looks up and
overwrites by key, and `.items()` iterates in insertion order; it is modelled
by an association list with an order-preserving `dictSet`. -/

/-- Decimal rendering of a natural number, the model of Python `"%d" % n`. -/
def natDecimal (n : Nat) : String :=
  if n = 0 then "0"
  else String.mk ((digitsLE n n).reverse.map Nat.digitChar)
where
  /-- Base-10 digits of `n`, least significant first, with explicit fuel. -/
  digitsLE : Nat → Nat → List Nat
  | 0, _ => []
  | fuel + 1, n => if n = 0 then [] else n % 10 :: digitsLE fuel (n / 10)

/-- The synthesized resource name `"F%d" % n`. -/
def fontResName (n : Nat) : String :=
  "F" ++ natDecimal n

/-- Value of a little-endian base-10 digit list (used to invert
`natDecimal`). -/
def ofLE : List Nat → Nat
  | [] => 0
  | d :: ds => d + 10 * ofLE ds

/-- Parse a decimal string back to a number (left inverse of `natDecimal`). -/
def parseDec (s : String) : Nat :=
  ofLE ((s.data.map (fun c => c.toNat - 48)).reverse)

/-- The keys of a font resource table built exclusively by
`_get_font_resource_name` starting from the lazily created empty table:
`F1, F2, ...` in insertion order. -/
def canonicalFontKeys {F : Type} (t : List (String × F)) : Prop :=
  t.map Prod.fst = (List.range t.length).map (fun i => fontResName (i + 1))

/-- Order-preserving key update of an association list: Python
`d[key] = v` (overwrite in place, else append). -/
def dictSet {F : Type} (table : List (String × F)) (key : String) (v : F) :
    List (String × F) :=
  match table with
  | [] => [(key, v)]
  | (k0, v0) :: rest =>
      if k0 = key then (k0, v) :: rest else (k0, v0) :: dictSet rest key v

/-- The RGB channels returned by `font_color.to_rgb()` (8-bit values). -/
structure RGBColor where
  red : ℚ
  green : ℚ
  blue : ℚ

/-- The operand tuple of the content fragment written by
`_do_layout_without_padding` (chunk_of_text.py lines 166-186):
`rg` color channels, `Tf` resource name and scale, `Tm` matrix entries, and
the `Tj`/`TJ` operator produced by `_write_text_bytes`. -/
structure ContentFragment where
  red : ℚ
  green : ℚ
  blue : ℚ
  fontResourceName : String
  fontScale : ℚ
  tmScaleX : ℚ
  tmScaleY : ℚ
  tmX : ℚ
  tmY : ℚ
  textOperator : String

/-- The `Resources` dictionary of a page, reduced to the part the analyzed
code touches: the optional `Font` sub-dictionary. -/
structure Resources (F : Type) where
  font : Option (List (String × F))

/-- A rendering target page: optional `Resources` plus the persisted content
stream (a list of appended fragments, see `ContentFragment`). -/
structure Page (F : Type) where
  resources : Option (Resources F)
  contents : List ContentFragment

/-- `ChunkOfText._get_font_resource_name` (chunk_of_text.py lines 91-107):
lazily create `Resources/Font`, reuse the first existing key whose value
equals the font, otherwise synthesize `F(count+1)` and insert. Returns the
resource name and the updated page. -/
def getFontResourceName {F : Type} [DecidableEq F] (font : F) (page : Page F) :
    String × Page F :=
  let table := (page.resources.getD ⟨none⟩).font.getD []
  let found := (table.filter (fun kv => kv.2 == font)).map Prod.fst
  match found with
  | k :: _ =>
      (k, { page with resources := some ⟨some table⟩ })
  | [] =>
      let fontIndex := table.length + 1
      let newName := fontResName fontIndex
      (newName, { page with resources := some ⟨some (dictSet table newName font)⟩ })

/-! ## Layout (`ChunkOfText._do_layout_without_padding`)

The content-stream fragment is kept as its operand tuple (the source
interpolates these operands with `%f` into operator text; the numeric
operands are the contract, the float formatting is not modelled).  The
glyph-metrics provider (`GlyphLine(...).get_width_in_text_space()`) is an
external collaborator and is a parameter. -/

/-- Everything `_do_layout_without_padding` produces: the returned rectangle,
the element's stored bounding box (`set_bounding_box`), and the updated page
(with the fragment appended to its content stream, modelled from the spec:
`_append_to_content_stream` lives in `page.py`, outside the analyzed sources;
per §4.3 it "updates the target's persisted content stream"). -/
structure LayoutOut (F : Type) where
  layoutRect : Rectangle
  storedBoundingBox : Rectangle
  content : ContentFragment
  page : Page F

/-- `ChunkOfText._do_layout_without_padding` (chunk_of_text.py lines
161-204). `view font` exposes the font's `get_font_name` and
`unicode_to_character_identifier`; `glyphWidth ids font size` is the
metrics provider. An `AssertionError` raised while encoding the text
aborts the call. -/
def doLayoutWithoutPadding {F : Type} [DecidableEq F]
    (view : F → CFont) (glyphWidth : List Nat → F → ℚ → ℚ)
    (font : F) (fontSize : ℚ) (fontColor : RGBColor) (text : List Char)
    (page : Page F) (boundingBox : Rectangle) : Except String (LayoutOut F) :=
  let rgb := fontColor
  let reg := getFontResourceName font page
  let resName := reg.1
  let page1 := reg.2
  match ChunkOfText.writeTextBytes (view font) text with
  | .error e => .error e
  | .ok textOp =>
      let content : ContentFragment :=
        { red := rgb.red / 255
          green := rgb.green / 255
          blue := rgb.blue / 255
          fontResourceName := resName
          fontScale := 1
          tmScaleX := fontSize
          tmScaleY := fontSize
          tmX := boundingBox.x
          tmY := boundingBox.y + boundingBox.height - fontSize
          textOperator := textOp }
      let encodedBytes : List Nat :=
        text.map (fun c => ((view font).cid c).getD 0)
      let layoutRect : Rectangle :=
        { x := boundingBox.x
          y := boundingBox.y + boundingBox.height - fontSize
          width := glyphWidth encodedBytes font fontSize
          height := fontSize }
      .ok
        { layoutRect := layoutRect
          storedBoundingBox := layoutRect
          content := content
          page := { page1 with contents := page1.contents ++ [content] } }

/-! ## `DefaultFontDictionaryTransformer`
(ptext/tranform/font/default_font_dictionary_transformer.py)

Untyped nodes are the `ptext.primitive` variants the transformer touches;
a `PDFDictionary` is an insertion-ordered mapping with unique keys (a Python
`dict`), modelled as an association list.  The root transformer
(`self.get_root_transformer().transform`) is an external collaborator and a
parameter `rootT`; every recursive invocation of it is recorded as a
`RootCall` so that theorems can speak about the arguments the transformer
passes down.  Listeners are opaque values (`Nat`).  Python exceptions are
`PyErr` values in `Except`. -/

/-- Untyped document node (`PDFObject`); `PDFName` is its string. -/
inductive PDFObject where
  | null
  | name (s : String)
  | number (n : Int)
  | dict (entries : List (String × PDFObject))

/-- Python `d[PDFName(key)]` on a dictionary's entry list: first entry with
the key. -/
def dictLookup : List (String × PDFObject) → String → Option PDFObject
  | [], _ => none
  | (k, v) :: rest, key => if k = key then some v else dictLookup rest key

/-- `v != PDFNull()`, negated: whether a value is the null object. -/
def PDFObject.isNull : PDFObject → Bool
  | .null => true
  | _ => false

/-- The six known font sub-variants (dispatch key: the `Subtype` name). -/
inductive FontVariant where
  | trueType
  | type0
  | type1
  | type3
  | cidFontType0
  | cidFontType2
deriving DecidableEq, Repr

/-- The `Subtype`-name dispatch chain (transformer lines 37-48). -/
def subtypeVariant : String → Option FontVariant
  | "TrueType" => some .trueType
  | "Type0" => some .type0
  | "Type1" => some .type1
  | "Type3" => some .type3
  | "CIDFontType0" => some .cidFontType0
  | "CIDFontType2" => some .cidFontType2
  | _ => none

/-- The typed font object under construction: its sub-variant, the parent
back-reference set by `set_parent`, the listeners attached by
`add_event_listener`, and the attributes set by `font_obj[k.name] = v`. -/
structure TypedFont where
  variant : FontVariant
  parent : Option PDFObject
  listeners : List Nat
  attrs : List (String × PDFObject)

/-- The Python exceptions the embedding distinguishes. -/
inductive PyErr where
  /-- subscripting a dictionary with an absent key -/
  | keyError
  /-- `.name` on a value that has no such attribute -/
  | attributeError
  /-- calling a method on `None` (`None.add_event_listener(...)`) -/
  | noneAttributeError
  /-- item assignment on `None` (`None[k] = v`) -/
  | noneItemAssignment
  /-- subscripting a non-dictionary -/
  | typeError
deriving DecidableEq, Repr

/-- One recorded invocation of the root transformer (transformer line 64):
the child value, the key it sits under, and the parent / listener arguments
passed, plus the value the root transformer returned. -/
structure RootCall where
  child : PDFObject
  key : String
  parentArg : Option TypedFont
  listenersArg : List Nat
  result : PDFObject

/-- The successful outcome of `transform`: the returned object (`None` for
unknown subtypes), the recorded root-transformer invocations, and the
diagnostics printed. -/
structure TransformOut where
  result : Option TypedFont
  calls : List RootCall
  diagnostics : List String

/-- The key/value conversion loop of `transform` (transformer lines 61-66):
skip the `Parent` key, transform each child with the object under
construction as parent and an empty listener list, and store non-null
results; item assignment on `None` raises. -/
def convertKV (rootT : PDFObject → Option TypedFont → List Nat → PDFObject) :
    List (String × PDFObject) → Option TypedFont →
    Except PyErr (Option TypedFont × List RootCall)
  | [], fontObj => .ok (fontObj, [])
  | (k, v) :: rest, fontObj =>
      if k = "Parent" then convertKV rootT rest fontObj
      else if (rootT v fontObj []).isNull then
        (convertKV rootT rest fontObj).map
          (fun r => (r.1, ⟨v, k, fontObj, [], rootT v fontObj []⟩ :: r.2))
      else
        match fontObj with
        | none => .error .noneItemAssignment
        | some f =>
            (convertKV rootT rest
                (some { f with attrs := dictSet f.attrs k (rootT v (some f) []) })).map
              (fun r => (r.1, ⟨v, k, some f, [], rootT v (some f) []⟩ :: r.2))

/-- `DefaultFontDictionaryTransformer.transform` (transformer lines 25-69).
Subscripting a non-dictionary raises; a missing `Subtype` key raises
(modelled from the spec: `PDFDictionary` lives in `ptext.primitive`, outside
the analyzed sources, and the spec's data model declares a dictionary a
"mapping of Name→Node", so an absent key is a lookup error and `.name` on a
non-name value an attribute error); for an unknown subtype `font_obj` stays
`None` and the diagnostic is recorded, after which the unguarded
`font_obj.add_event_listener(l)` raises if any listener was supplied, and
the unguarded `font_obj[k.name] = v` raises at the first non-null child. -/
def transform (rootT : PDFObject → Option TypedFont → List Nat → PDFObject)
    (objectToTransform : PDFObject) (parentObject : PDFObject)
    (eventListeners : List Nat) : Except PyErr TransformOut :=
  match objectToTransform with
  | .dict entries =>
      match dictLookup entries "Subtype" with
      | none => .error .keyError
      | some (.name subtypeName) =>
          match subtypeVariant subtypeName with
          | none =>
              match eventListeners with
              | _ :: _ => .error .noneAttributeError
              | [] =>
                  (convertKV rootT entries none).map
                    (fun r => ⟨r.1, r.2, ["Unsupported font type " ++ subtypeName]⟩)
          | some var =>
              (convertKV rootT entries
                  (some ⟨var, some parentObject, eventListeners, []⟩)).map
                (fun r => ⟨r.1, r.2, []⟩)
      | some _ => .error .attributeError
  | _ => .error .typeError

/-- `DefaultFontDictionaryTransformer.can_be_transformed` (transformer lines
18-23): a dictionary whose `Type` entry exists and equals the name `Font`. -/
def canBeTransformed (object : PDFObject) : Bool :=
  match object with
  | .dict entries =>
      match dictLookup entries "Type" with
      | some (.name s) => s == "Font"
      | some _ => false
      | none => false
  | _ => false

/-! ## Theorems -/

/-! ### Octal digit lemmas -/

theorem toDigitsCore8_small (fuel n : Nat) (ds : List Char) (h : n < 8)
    (hf : 1 ≤ fuel) :
    Nat.toDigitsCore 8 fuel n ds = Nat.digitChar n :: ds := by
  cases fuel with
  | zero => omega
  | succ f =>
    simp [Nat.toDigitsCore, Nat.div_eq_of_lt h, Nat.mod_eq_of_lt h]

theorem toDigitsCore8_mid (fuel n : Nat) (ds : List Char) (h8 : 8 ≤ n)
    (h64 : n < 64) (hf : 2 ≤ fuel) :
    Nat.toDigitsCore 8 fuel n ds =
      Nat.digitChar (n / 8) :: Nat.digitChar (n % 8) :: ds := by
  cases fuel with
  | zero => omega
  | succ f =>
    have hne : ¬ n / 8 = 0 := by omega
    simp only [Nat.toDigitsCore, hne, if_false]
    exact toDigitsCore8_small f (n / 8) _ (by omega) (by omega)

theorem toDigits8_of_lt (n : Nat) (h : n < 8) :
    Nat.toDigits 8 n = [Nat.digitChar n] := by
  unfold Nat.toDigits
  exact toDigitsCore8_small (n + 1) n [] h (by omega)

theorem toDigits8_of_mid (n : Nat) (h8 : 8 ≤ n) (h64 : n < 64) :
    Nat.toDigits 8 n = [Nat.digitChar (n / 8), Nat.digitChar (n % 8)] := by
  unfold Nat.toDigits
  exact toDigitsCore8_mid (n + 1) n [] h8 h64 (by omega)

theorem escapeChar_eq_spec (c : Char) :
    ChunkOfText.escapeChar c = escapeCharSpec c := by
  unfold ChunkOfText.escapeChar escapeCharSpec ChunkOfText.octStr octPad3
  split_ifs with h1 h2 h3 h4 h5 h6 h7 h8
  · rfl
  · rfl
  · rfl
  · rfl
  · rfl
  · rfl
  · rw [toDigits8_of_lt c.toNat h7]
    rfl
  · rw [toDigits8_of_mid c.toNat h8.1 (by omega)]
    rfl
  · rfl

/-- C6: in literal mode each character is escaped exactly per the spec's
table (named control escapes, backslash-prefixed delimiters, zero-padded
3-digit octal below code point 8, octal with one fewer leading zero for
8-31, everything else unchanged), in original order, and the result is
wrapped in parentheses followed by the show-text operator. -/
theorem c6_literal_mode_escape_table (text : List Char) :
    ChunkOfText.writeTextBytesInAscii text =
      "(" ++ String.join (text.map escapeCharSpec) ++ ") Tj"
    ∧ ∀ c : Char, ChunkOfText.escapeChar c = escapeCharSpec c := by
  constructor
  · unfold ChunkOfText.writeTextBytesInAscii
    rw [show text.map ChunkOfText.escapeChar = text.map escapeCharSpec from
      List.map_congr_left (fun c _ => escapeChar_eq_spec c)]
  · exact escapeChar_eq_spec

/-- C3: `_write_text_bytes` chooses literal mode if and only if every
character's identifier under the font equals its native code point; when one
differs the whole chunk goes through the hex writer — the decision is a
single binary choice per call. -/
theorem c3_encoding_mode_selection (font : CFont) (text : List Char) :
    (ChunkOfText.hexMode font text = false ↔
      ∀ c ∈ text, font.cid c = some c.toNat)
    ∧ ChunkOfText.writeTextBytes font text =
        (if ChunkOfText.hexMode font text then
          ChunkOfText.writeTextBytesInHex font text
         else .ok (ChunkOfText.writeTextBytesInAscii text)) := by
  refine ⟨?_, rfl⟩
  simp [ChunkOfText.hexMode]

theorem writeTextBytesInHex_go_error (font : CFont) (text : List Char)
    (h : ∃ c ∈ text, font.cid c = none) :
    ∀ s, ∃ msg, ChunkOfText.writeTextBytesInHex.go font text s = .error msg := by
  induction text with
  | nil => exact absurd h (by simp)
  | cons c0 rest ih =>
    intro s
    obtain ⟨c, hc, hcid⟩ := h
    unfold ChunkOfText.writeTextBytesInHex.go
    cases hcase : font.cid c0 with
    | none => exact ⟨_, rfl⟩
    | some cid =>
      have hmem : c ∈ rest := by
        rcases List.mem_cons.mp hc with rfl | hm
        · rw [hcase] at hcid
          exact absurd hcid (by simp)
        · exact hm
      exact ih ⟨c, hmem, hcid⟩ _

/-- C4: a character with no identifier under the font makes the whole encode
call fail: `_write_text_bytes` surfaces an error and produces no operator
string. -/
theorem c4_unrepresentable_character_fatal (font : CFont) (text : List Char)
    (h : ∃ c ∈ text, font.cid c = none) :
    ∃ msg, ChunkOfText.writeTextBytes font text = .error msg := by
  obtain ⟨c, hc, hcid⟩ := h
  have hmode : ChunkOfText.hexMode font text = true := by
    simp only [ChunkOfText.hexMode, List.any_eq_true]
    exact ⟨c, hc, by simp [hcid]⟩
  obtain ⟨msg, hmsg⟩ :=
    writeTextBytesInHex_go_error font text ⟨c, hc, hcid⟩ ""
  refine ⟨msg, ?_⟩
  unfold ChunkOfText.writeTextBytes
  rw [hmode]
  simp only [if_true]
  unfold ChunkOfText.writeTextBytesInHex
  rw [hmsg]
  rfl

/-- Witness for C4 at a concrete font and text. -/
theorem c4_unrepresentable_character_fatal_witness :
    ∃ msg, ChunkOfText.writeTextBytes
      { fontName := "F", cid := fun _ => none } ['a'] = .error msg :=
  c4_unrepresentable_character_fatal _ _ ⟨'a', List.mem_singleton.mpr rfl, rfl⟩

/-- C8: a text-render event is forwarded to every downstream listener, in
registration order, exactly when its bounding-box origin lies in the open
interval `(rect.x, rect.x + rect.width) × (rect.y, rect.y + rect.height)`
(an origin on an edge is not forwarded); an image-render event is filtered by
the same strict test on its own x/y; any other event kind is forwarded
unconditionally. -/
theorem c8_geometric_event_filter (L : Type) (s : LocationFilter.State L)
    (b : Rectangle) (ex ey : ℚ) (tag : Nat) :
    (LocationFilter.eventOccurred s (Event.chunkOfTextRender (some b)) =
      .ok (if b.x ∈ Set.Ioo s.rectangle.x (s.rectangle.x + s.rectangle.width) ∧
             b.y ∈ Set.Ioo s.rectangle.y (s.rectangle.y + s.rectangle.height)
           then s.listeners else []))
    ∧ (LocationFilter.eventOccurred s (Event.imageRender ex ey) =
      .ok (if ex ∈ Set.Ioo s.rectangle.x (s.rectangle.x + s.rectangle.width) ∧
             ey ∈ Set.Ioo s.rectangle.y (s.rectangle.y + s.rectangle.height)
           then s.listeners else []))
    ∧ LocationFilter.eventOccurred s (Event.other tag) = .ok s.listeners := by
  refine ⟨?_, ?_, rfl⟩ <;>
    · simp only [LocationFilter.eventOccurred, Set.mem_Ioo, and_assoc]
      split <;> rfl

/-! ### Decimal-name lemmas -/

theorem digitsLE_ofLE (fuel : Nat) :
    ∀ n, n ≤ fuel → ofLE (natDecimal.digitsLE fuel n) = n := by
  induction fuel with
  | zero =>
    intro n h
    have h0 : n = 0 := by omega
    subst h0
    rfl
  | succ f ih =>
    intro n h
    unfold natDecimal.digitsLE
    by_cases h0 : n = 0
    · simp [h0, ofLE]
    · simp only [h0, if_false]
      have : ofLE (n % 10 :: natDecimal.digitsLE f (n / 10)) =
          n % 10 + 10 * ofLE (natDecimal.digitsLE f (n / 10)) := rfl
      rw [this, ih (n / 10) (by omega)]
      omega

theorem digitsLE_lt (fuel : Nat) :
    ∀ n d, d ∈ natDecimal.digitsLE fuel n → d < 10 := by
  induction fuel with
  | zero =>
    intro n d h
    exact absurd h (by simp [natDecimal.digitsLE])
  | succ f ih =>
    intro n d h
    unfold natDecimal.digitsLE at h
    by_cases h0 : n = 0
    · simp [h0] at h
    · simp only [h0, if_false, List.mem_cons] at h
      rcases h with rfl | h
      · omega
      · exact ih _ _ h

theorem digitChar_roundtrip (d : Nat) (h : d < 10) :
    (Nat.digitChar d).toNat - 48 = d := by
  interval_cases d <;> rfl

theorem parseDec_natDecimal (n : Nat) : parseDec (natDecimal n) = n := by
  unfold natDecimal parseDec
  by_cases h0 : n = 0
  · subst h0
    rfl
  · simp only [h0, if_false]
    show ofLE ((((natDecimal.digitsLE n n).reverse.map Nat.digitChar).map
      (fun c : Char => c.toNat - 48)).reverse) = n
    rw [List.map_map]
    have hcongr : (natDecimal.digitsLE n n).reverse.map
          ((fun c : Char => c.toNat - 48) ∘ Nat.digitChar)
        = (natDecimal.digitsLE n n).reverse.map id := by
      apply List.map_congr_left
      intro d hd
      exact digitChar_roundtrip d (digitsLE_lt n n d (List.mem_reverse.mp hd))
    rw [hcongr, List.map_id, List.reverse_reverse]
    exact digitsLE_ofLE n n le_rfl

theorem natDecimal_injective : Function.Injective natDecimal := by
  intro a b h
  rw [← parseDec_natDecimal a, ← parseDec_natDecimal b, h]

theorem fontResName_injective : Function.Injective fontResName := by
  intro a b h
  apply natDecimal_injective
  have hd : ("F" ++ natDecimal a).data = ("F" ++ natDecimal b).data :=
    congrArg String.data h
  rw [String.data_append, String.data_append] at hd
  apply String.ext
  exact List.cons_injective hd

theorem dictSet_of_not_mem {F : Type} (t : List (String × F)) (k : String) (v : F)
    (h : k ∉ t.map Prod.fst) : dictSet t k v = t ++ [(k, v)] := by
  induction t with
  | nil => rfl
  | cons kv rest ih =>
    obtain ⟨k0, v0⟩ := kv
    simp only [List.map_cons, List.mem_cons] at h
    push_neg at h
    unfold dictSet
    rw [if_neg (fun he => h.1 he.symm)]
    rw [ih h.2]
    rfl

theorem canonical_next_fresh {F : Type} (t : List (String × F))
    (hc : canonicalFontKeys t) :
    fontResName (t.length + 1) ∉ t.map Prod.fst := by
  rw [hc]
  intro hmem
  obtain ⟨i, hi, heq⟩ := List.mem_map.mp hmem
  have := fontResName_injective heq.symm
  have : i = t.length := by omega
  subst this
  exact absurd (List.mem_range.mp hi) (by omega)

theorem filter_value_eq_nil {F : Type} [DecidableEq F] (t : List (String × F))
    (f : F) (h : f ∉ t.map Prod.snd) :
    t.filter (fun kv => kv.2 == f) = [] := by
  rw [List.filter_eq_nil]
  intro kv hkv
  simp only [beq_iff_eq]
  intro he
  exact h (List.mem_map.mpr ⟨kv, hkv, he⟩)

theorem register_fresh {F : Type} [DecidableEq F] (t : List (String × F))
    (cs : List ContentFragment) (f : F)
    (hc : canonicalFontKeys t) (hf : f ∉ t.map Prod.snd) :
    getFontResourceName f ⟨some ⟨some t⟩, cs⟩ =
      (fontResName (t.length + 1),
        ⟨some ⟨some (t ++ [(fontResName (t.length + 1), f)])⟩, cs⟩)
    ∧ canonicalFontKeys (t ++ [(fontResName (t.length + 1), f)]) := by
  constructor
  · unfold getFontResourceName
    simp only [Option.getD_some]
    rw [filter_value_eq_nil t f hf]
    simp only [List.map_nil]
    rw [dictSet_of_not_mem t _ f (canonical_next_fresh t hc)]
  · unfold canonicalFontKeys
    rw [List.map_append, hc]
    simp only [List.length_append, List.length_cons, List.length_nil]
    rw [show t.length + (0 + 1) = t.length + 1 from by omega, List.range_succ]
    simp

theorem filter_dictSet_value {F : Type} [DecidableEq F] (t : List (String × F))
    (k : String) (f : F) (h : f ∉ t.map Prod.snd) :
    (dictSet t k f).filter (fun kv => kv.2 == f) = [(k, f)] := by
  induction t with
  | nil => simp [dictSet]
  | cons kv rest ih =>
    obtain ⟨k0, v0⟩ := kv
    simp only [List.map_cons, List.mem_cons] at h
    push_neg at h
    unfold dictSet
    by_cases hk : k0 = k
    · subst hk
      simp only [if_true, List.filter_cons]
      rw [if_pos (by simp), filter_value_eq_nil rest f h.2]
    · rw [if_neg hk]
      simp only [List.filter_cons]
      rw [if_neg (by simp only [beq_iff_eq]; exact fun he => h.1 he.symm)]
      exact ih h.2

/-- C7: registering the same font twice against the same page returns the
identical resource name and leaves the page unchanged (idempotence by font
identity); on a table built by this method (keys `F1..Fn`), a font not yet
present gets the name `F(count+1)`, and successive distinct fresh fonts get
the distinct names `F(n+1)`, `F(n+2)` with strictly increasing suffix. -/
theorem c7_font_resource_registration {F : Type} [DecidableEq F]
    (page : Page F) (t : List (String × F)) (cs : List ContentFragment) (f g : F) :
    (getFontResourceName f (getFontResourceName f page).2 =
      getFontResourceName f page)
    ∧ (canonicalFontKeys t → f ∉ t.map Prod.snd →
        getFontResourceName f ⟨some ⟨some t⟩, cs⟩ =
          (fontResName (t.length + 1),
            ⟨some ⟨some (t ++ [(fontResName (t.length + 1), f)])⟩, cs⟩))
    ∧ (canonicalFontKeys t → f ∉ t.map Prod.snd → g ∉ t.map Prod.snd → g ≠ f →
        (getFontResourceName f ⟨some ⟨some t⟩, cs⟩).1 = fontResName (t.length + 1)
        ∧ (getFontResourceName g
            (getFontResourceName f ⟨some ⟨some t⟩, cs⟩).2).1 =
            fontResName (t.length + 2)
        ∧ fontResName (t.length + 1) ≠ fontResName (t.length + 2)) := by
  refine ⟨?_, ?_, ?_⟩
  · -- idempotence, over an arbitrary starting page
    unfold getFontResourceName
    cases hfound : ((((page.resources.getD ⟨none⟩).font.getD []).filter
        (fun kv => kv.2 == f)).map Prod.fst) with
    | cons k rest =>
      simp only [Option.getD_some]
      rw [hfound]
      simp only [Option.getD_some]
      rw [hfound]
    | nil =>
      simp only [Option.getD_some]
      rw [hfound]
      simp only [Option.getD_some]
      have hnotin : f ∉ ((page.resources.getD ⟨none⟩).font.getD []).map Prod.snd := by
        intro hmem
        obtain ⟨kv, hkv, he⟩ := List.mem_map.mp hmem
        have : kv ∈ ((page.resources.getD ⟨none⟩).font.getD []).filter
            (fun kv => kv.2 == f) := List.mem_filter.mpr ⟨hkv, by simp [he]⟩
        rw [List.map_eq_nil] at hfound
        rw [hfound] at this
        exact absurd this (List.not_mem_nil kv)
      rw [filter_dictSet_value _ _ f hnotin]
      rfl
  · intro hc hf
    exact (register_fresh t cs f hc hf).1
  · intro hc hf hg hgf
    obtain ⟨hreg, hcanon⟩ := register_fresh t cs f hc hf
    have hg2 : g ∉ (t ++ [(fontResName (t.length + 1), f)]).map Prod.snd := by
      rw [List.map_append]
      intro hmem
      rcases List.mem_append.mp hmem with h | h
      · exact hg h
      · simp at h
        exact hgf h
    obtain ⟨hreg2, _⟩ := register_fresh _ cs g hcanon hg2
    refine ⟨by rw [hreg], ?_, ?_⟩
    · rw [hreg]
      rw [hreg2]
      simp
    · intro he
      have := fontResName_injective he
      omega

theorem writeTextBytesInHex_go_ok (font : CFont) (text : List Char)
    (h : ∀ c ∈ text, font.cid c ≠ none) :
    ∀ s, ∃ r, ChunkOfText.writeTextBytesInHex.go font text s = .ok r := by
  induction text with
  | nil => exact fun s => ⟨s, rfl⟩
  | cons c rest ih =>
    intro s
    unfold ChunkOfText.writeTextBytesInHex.go
    cases hc : font.cid c with
    | none => exact absurd hc (h c (List.mem_cons_self c rest))
    | some cid =>
      exact ih (fun x hx => h x (List.mem_cons_of_mem c hx)) _

theorem writeTextBytes_ok_of_total (font : CFont) (text : List Char)
    (h : ∀ c ∈ text, font.cid c ≠ none) :
    ∃ r, ChunkOfText.writeTextBytes font text = .ok r := by
  unfold ChunkOfText.writeTextBytes
  by_cases hm : ChunkOfText.hexMode font text
  · rw [if_pos hm]
    obtain ⟨r, hr⟩ := writeTextBytesInHex_go_ok font text h ""
    refine ⟨"[" ++ r ++ "] TJ", ?_⟩
    unfold ChunkOfText.writeTextBytesInHex
    rw [hr]
    rfl
  · rw [if_neg hm]
    exact ⟨_, rfl⟩

/-- C9: when every character of the text has an identifier under the font,
layout succeeds, the returned rectangle has `x = bounding_box.x`,
`y = bounding_box.y + bounding_box.height - font_size`, `height = font_size`
and `width` equal to the metrics provider applied to exactly the
character-identifier sequence the encoder uses; the same rectangle is stored
as the element's bounding box, and the emitted content fragment places the
text at the same x/y with the font size as text-matrix scale. -/
theorem c9_layout_rectangle {F : Type} [DecidableEq F]
    (view : F → CFont) (glyphWidth : List Nat → F → ℚ → ℚ)
    (font : F) (fontSize : ℚ) (fontColor : RGBColor) (text : List Char)
    (page : Page F) (bb : Rectangle)
    (h : ∀ c ∈ text, (view font).cid c ≠ none) :
    ∃ textOp,
      ChunkOfText.writeTextBytes (view font) text = .ok textOp
      ∧ doLayoutWithoutPadding view glyphWidth font fontSize fontColor text page bb =
          .ok
            { layoutRect :=
                { x := bb.x
                  y := bb.y + bb.height - fontSize
                  width := glyphWidth
                    (text.map (fun c => ((view font).cid c).getD 0)) font fontSize
                  height := fontSize }
              storedBoundingBox :=
                { x := bb.x
                  y := bb.y + bb.height - fontSize
                  width := glyphWidth
                    (text.map (fun c => ((view font).cid c).getD 0)) font fontSize
                  height := fontSize }
              content :=
                { red := fontColor.red / 255
                  green := fontColor.green / 255
                  blue := fontColor.blue / 255
                  fontResourceName := (getFontResourceName font page).1
                  fontScale := 1
                  tmScaleX := fontSize
                  tmScaleY := fontSize
                  tmX := bb.x
                  tmY := bb.y + bb.height - fontSize
                  textOperator := textOp }
              page :=
                { resources := (getFontResourceName font page).2.resources
                  contents := (getFontResourceName font page).2.contents ++
                    [{ red := fontColor.red / 255
                       green := fontColor.green / 255
                       blue := fontColor.blue / 255
                       fontResourceName := (getFontResourceName font page).1
                       fontScale := 1
                       tmScaleX := fontSize
                       tmScaleY := fontSize
                       tmX := bb.x
                       tmY := bb.y + bb.height - fontSize
                       textOperator := textOp }] } }
      ∧ ∀ c ∈ text, some (((view font).cid c).getD 0) = (view font).cid c := by
  obtain ⟨op, hop⟩ := writeTextBytes_ok_of_total (view font) text h
  refine ⟨op, hop, ?_, ?_⟩
  · unfold doLayoutWithoutPadding
    rw [hop]
  · intro c hc
    cases hcase : (view font).cid c with
    | none => exact absurd hcase (h c hc)
    | some n => rfl

/-- Witness for C9 at a concrete font, metrics provider, text and page. -/
theorem c9_layout_rectangle_witness :
    ∃ textOp,
      ChunkOfText.writeTextBytes
        ((fun _ => ⟨"H", fun c => some c.toNat⟩ : Nat → CFont) 3) ['a', 'b'] =
        .ok textOp
      ∧ doLayoutWithoutPadding (fun _ => ⟨"H", fun c => some c.toNat⟩)
          (fun ids _ sz => (ids.length : ℚ) * sz) 3 12 ⟨0, 0, 0⟩ ['a', 'b']
          ⟨none, []⟩ ⟨5, 10, 100, 50⟩ =
          .ok
            { layoutRect :=
                { x := (5 : ℚ)
                  y := (10 : ℚ) + 50 - 12
                  width := (fun (ids : List Nat) (_ : Nat) (sz : ℚ) =>
                    (ids.length : ℚ) * sz)
                    (['a', 'b'].map (fun c =>
                      (((fun _ => ⟨"H", fun c => some c.toNat⟩ : Nat → CFont) 3).cid
                        c).getD 0)) 3 12
                  height := 12 }
              storedBoundingBox :=
                { x := (5 : ℚ)
                  y := (10 : ℚ) + 50 - 12
                  width := (fun (ids : List Nat) (_ : Nat) (sz : ℚ) =>
                    (ids.length : ℚ) * sz)
                    (['a', 'b'].map (fun c =>
                      (((fun _ => ⟨"H", fun c => some c.toNat⟩ : Nat → CFont) 3).cid
                        c).getD 0)) 3 12
                  height := 12 }
              content :=
                { red := (0 : ℚ) / 255
                  green := (0 : ℚ) / 255
                  blue := (0 : ℚ) / 255
                  fontResourceName :=
                    (getFontResourceName 3 (⟨none, []⟩ : Page Nat)).1
                  fontScale := 1
                  tmScaleX := 12
                  tmScaleY := 12
                  tmX := 5
                  tmY := (10 : ℚ) + 50 - 12
                  textOperator := textOp }
              page :=
                { resources :=
                    (getFontResourceName 3 (⟨none, []⟩ : Page Nat)).2.resources
                  contents :=
                    (getFontResourceName 3 (⟨none, []⟩ : Page Nat)).2.contents ++
                    [{ red := (0 : ℚ) / 255
                       green := (0 : ℚ) / 255
                       blue := (0 : ℚ) / 255
                       fontResourceName :=
                         (getFontResourceName 3 (⟨none, []⟩ : Page Nat)).1
                       fontScale := 1
                       tmScaleX := 12
                       tmScaleY := 12
                       tmX := 5
                       tmY := (10 : ℚ) + 50 - 12
                       textOperator := textOp }] } }
      ∧ ∀ c ∈ ['a', 'b'],
          some ((((fun _ => ⟨"H", fun c => some c.toNat⟩ : Nat → CFont) 3).cid
            c).getD 0) =
          ((fun _ => ⟨"H", fun c => some c.toNat⟩ : Nat → CFont) 3).cid c :=
  c9_layout_rectangle (fun _ => ⟨"H", fun c => some c.toNat⟩)
    (fun ids _ sz => (ids.length : ℚ) * sz) 3 12 ⟨0, 0, 0⟩ ['a', 'b']
    ⟨none, []⟩ ⟨5, 10, 100, 50⟩ (by intro c hc; simp)

/-! ### Transformer lemmas -/

theorem dictLookup_eq_none (L : List (String × PDFObject)) (k : String)
    (h : k ∉ L.map Prod.fst) : dictLookup L k = none := by
  induction L with
  | nil => rfl
  | cons kv rest ih =>
    obtain ⟨k0, v0⟩ := kv
    simp only [List.map_cons, List.mem_cons] at h
    push_neg at h
    unfold dictLookup
    rw [if_neg (fun he => h.1 he.symm)]
    exact ih h.2

theorem dictLookup_eq_some_of_mem (L : List (String × PDFObject)) (k : String)
    (v : PDFObject) (hnodup : (L.map Prod.fst).Nodup) (hmem : (k, v) ∈ L) :
    dictLookup L k = some v := by
  induction L with
  | nil => exact absurd hmem (List.not_mem_nil _)
  | cons kv rest ih =>
    obtain ⟨k0, v0⟩ := kv
    simp only [List.map_cons, List.nodup_cons] at hnodup
    rcases List.mem_cons.mp hmem with he | hm
    · obtain ⟨rfl, rfl⟩ := Prod.mk.inj he
      unfold dictLookup
      rw [if_pos rfl]
    · unfold dictLookup
      rw [if_neg ?_]
      · exact ih hnodup.2 hm
      · intro he
        subst he
        exact hnodup.1 (List.mem_map.mpr ⟨(k0, v), hm, rfl⟩)

/-- Main induction lemma for the key/value loop when the typed object exists:
the loop never raises, visits exactly the non-`Parent` keys in order, passes
an empty listener list and a snapshot of the object under construction to
every recursive root-transformer call, and appends exactly the non-null
results to the attributes. -/
theorem convertKV_spec (rootT : PDFObject → Option TypedFont → List Nat → PDFObject)
    (items : List (String × PDFObject)) :
    ∀ f : TypedFont, (items.map Prod.fst).Nodup →
      (∀ k ∈ items.map Prod.fst, k ∉ f.attrs.map Prod.fst) →
      ∃ f2 calls,
        convertKV rootT items (some f) = .ok (some f2, calls)
        ∧ calls.map (fun rc => rc.key) =
            (items.filter (fun kv => kv.1 != "Parent")).map Prod.fst
        ∧ (∀ rc ∈ calls, rc.listenersArg = [])
        ∧ (∀ rc ∈ calls, ∃ g, rc.parentArg = some g ∧ g.variant = f.variant
            ∧ g.parent = f.parent ∧ g.listeners = f.listeners)
        ∧ f2.variant = f.variant ∧ f2.parent = f.parent
        ∧ f2.listeners = f.listeners
        ∧ f2.attrs = f.attrs ++
            (calls.filter (fun rc => !rc.result.isNull)).map
              (fun rc => (rc.key, rc.result)) := by
  induction items with
  | nil =>
    intro f _ _
    exact ⟨f, [], rfl, rfl, by simp, by simp, rfl, rfl, rfl, by simp⟩
  | cons kv rest ih =>
    intro f hnodup hdisj
    obtain ⟨k, v⟩ := kv
    simp only [List.map_cons, List.nodup_cons] at hnodup
    by_cases hk : k = "Parent"
    · subst hk
      have hstep : convertKV rootT (("Parent", v) :: rest) (some f) =
          convertKV rootT rest (some f) := by
        simp only [convertKV]
        simp
      obtain ⟨f2, calls, hconv, hkeys, hls, hpar, hv1, hp1, hl1, hattrs⟩ :=
        ih f hnodup.2 (fun k2 hk2 => hdisj k2 (by simp [hk2]))
      refine ⟨f2, calls, by rw [hstep]; exact hconv, ?_, hls, hpar,
        hv1, hp1, hl1, hattrs⟩
      rw [hkeys, List.filter_cons]
      simp
    · by_cases hnull : (rootT v (some f) []).isNull
      · have hstep : convertKV rootT ((k, v) :: rest) (some f) =
            (convertKV rootT rest (some f)).map
              (fun r => (r.1, ⟨v, k, some f, [], rootT v (some f) []⟩ :: r.2)) := by
          simp only [convertKV]
          rw [if_neg hk, if_pos hnull]
        obtain ⟨f2, calls, hconv, hkeys, hls, hpar, hv1, hp1, hl1, hattrs⟩ :=
          ih f hnodup.2 (fun k2 hk2 => hdisj k2 (by simp [hk2]))
        refine ⟨f2, ⟨v, k, some f, [], rootT v (some f) []⟩ :: calls,
          by rw [hstep, hconv]; rfl, ?_, ?_, ?_, hv1, hp1, hl1, ?_⟩
        · simp only [List.map_cons, hkeys, List.filter_cons]
          rw [if_pos (by simp [hk])]
          rfl
        · intro rc hrc
          rcases List.mem_cons.mp hrc with rfl | hm
          · rfl
          · exact hls rc hm
        · intro rc hrc
          rcases List.mem_cons.mp hrc with rfl | hm
          · exact ⟨f, rfl, rfl, rfl, rfl⟩
          · exact hpar rc hm
        · rw [hattrs, List.filter_cons]
          rw [if_neg (by simp [hnull])]
      · have hfresh : k ∉ f.attrs.map Prod.fst := hdisj k (by simp)
        have hstep : convertKV rootT ((k, v) :: rest) (some f) =
            (convertKV rootT rest
                (some { f with attrs := f.attrs ++ [(k, rootT v (some f) [])] })).map
              (fun r => (r.1, ⟨v, k, some f, [], rootT v (some f) []⟩ :: r.2)) := by
          simp only [convertKV]
          rw [if_neg hk, if_neg hnull, dictSet_of_not_mem f.attrs k _ hfresh]
        have hdisj2 : ∀ k2 ∈ rest.map Prod.fst,
            k2 ∉ (({ f with attrs := f.attrs ++ [(k, rootT v (some f) [])] } :
              TypedFont)).attrs.map Prod.fst := by
          intro k2 hk2
          simp only [List.map_append, List.map_cons, List.map_nil,
            List.mem_append, List.mem_cons]
          push_neg
          refine ⟨hdisj k2 (by simp [hk2]), ?_, List.not_mem_nil k2⟩
          intro he
          exact hnodup.1 (he ▸ hk2)
        obtain ⟨f2, calls, hconv, hkeys, hls, hpar, hv1, hp1, hl1, hattrs⟩ :=
          ih { f with attrs := f.attrs ++ [(k, rootT v (some f) [])] }
            hnodup.2 hdisj2
        refine ⟨f2, ⟨v, k, some f, [], rootT v (some f) []⟩ :: calls,
          by rw [hstep, hconv]; rfl, ?_, ?_, ?_, hv1, hp1, hl1, ?_⟩
        · simp only [List.map_cons, hkeys, List.filter_cons]
          rw [if_pos (by simp [hk])]
          rfl
        · intro rc hrc
          rcases List.mem_cons.mp hrc with rfl | hm
          · rfl
          · exact hls rc hm
        · intro rc hrc
          rcases List.mem_cons.mp hrc with rfl | hm
          · exact ⟨f, rfl, rfl, rfl, rfl⟩
          · exact hpar rc hm
        · rw [hattrs]
          rw [List.filter_cons, if_pos (by simp [hnull]), List.map_cons]
          simp

/-- The outcome of `transform` on a dictionary node with a known font
subtype: success, with the typed object carrying the variant, the supplied
parent and listeners, and exactly the non-null transformed children as
attributes. -/
theorem transform_known_subtype
    (rootT : PDFObject → Option TypedFont → List Nat → PDFObject)
    (entries : List (String × PDFObject)) (parent : PDFObject)
    (ls : List Nat) (s : String) (var : FontVariant)
    (hSub : dictLookup entries "Subtype" = some (.name s))
    (hvar : subtypeVariant s = some var)
    (hnodup : (entries.map Prod.fst).Nodup) :
    ∃ f2 calls,
      transform rootT (.dict entries) parent ls = .ok ⟨some f2, calls, []⟩
      ∧ calls.map (fun rc => rc.key) =
          (entries.filter (fun kv => kv.1 != "Parent")).map Prod.fst
      ∧ (∀ rc ∈ calls, rc.listenersArg = [])
      ∧ (∀ rc ∈ calls, ∃ g, rc.parentArg = some g ∧ g.variant = var
          ∧ g.parent = some parent ∧ g.listeners = ls)
      ∧ f2.variant = var ∧ f2.parent = some parent ∧ f2.listeners = ls
      ∧ f2.attrs =
          (calls.filter (fun rc => !rc.result.isNull)).map
            (fun rc => (rc.key, rc.result)) := by
  obtain ⟨f2, calls, hconv, hkeys, hls, hpar, hv1, hp1, hl1, hattrs⟩ :=
    convertKV_spec rootT entries ⟨var, some parent, ls, []⟩ hnodup (by simp)
  refine ⟨f2, calls, ?_, hkeys, hls, hpar, hv1, hp1, hl1, by simpa using hattrs⟩
  show transform rootT (.dict entries) parent ls = _
  simp only [transform]
  rw [hSub]
  simp only [hvar]
  rw [hconv]
  rfl

/-- C1 (code bug): on an unknown font subtype the transformer leaves
`font_obj = None` but then runs the unguarded listener loop and item
assignments, so `transform` raises instead of reporting and returning no
typed object: with any supplied listener it raises on
`None.add_event_listener`, and even with no listeners it raises on
`None[k] = v` at the first non-null child; only when every child transforms
to null does it return `None` with the diagnostic. -/
theorem c1_unknown_subtype_crashes :
    (∀ rootT parent,
      transform rootT
          (.dict [("Type", .name "Font"), ("Subtype", .name "Barcode")])
          parent [7] = .error .noneAttributeError)
    ∧ (∀ parent,
      transform (fun v _ _ => v)
          (.dict [("Type", .name "Font"), ("Subtype", .name "Barcode")])
          parent [] = .error .noneItemAssignment)
    ∧ (∀ parent,
      transform (fun _ _ _ => .null)
          (.dict [("Type", .name "Font"), ("Subtype", .name "Barcode")])
          parent [] =
        .ok ⟨none,
          [⟨.name "Font", "Type", none, [], .null⟩,
           ⟨.name "Barcode", "Subtype", none, [], .null⟩],
          ["Unsupported font type Barcode"]⟩) :=
  ⟨fun _ _ => rfl, fun _ => rfl, fun _ => rfl⟩

/-- C2 counterexample: on a concrete font node supplied with the listener
list `[7]`, every recursive root-transformer invocation receives the empty
listener list, not the supplied one. -/
theorem c2_counterexample :
    (transform (fun v _ _ => v)
        (.dict [("Type", .name "Font"), ("Subtype", .name "Type1"),
                ("BaseFont", .name "Helvetica")])
        .null [7]).map (fun out => out.calls.map (fun rc => rc.listenersArg)) =
      .ok [[], [], []]
    ∧ ([[], [], []] : List (List Nat)) ≠ [[7], [7], [7]] := by
  exact ⟨rfl, by simp⟩

/-- C2 amended: every child value under a non-`Parent` key is recursively
transformed with (a snapshot of) the new typed object as parent — which
carries the supplied listeners — but with an *empty* listener list argument,
not the listener set supplied to the parent call. -/
theorem c2_child_transform_listeners
    (rootT : PDFObject → Option TypedFont → List Nat → PDFObject)
    (entries : List (String × PDFObject)) (parent : PDFObject)
    (ls : List Nat) (s : String) (var : FontVariant)
    (hSub : dictLookup entries "Subtype" = some (.name s))
    (hvar : subtypeVariant s = some var)
    (hnodup : (entries.map Prod.fst).Nodup) :
    ∃ out : TransformOut,
      transform rootT (.dict entries) parent ls = .ok out
      ∧ out.calls.map (fun rc => rc.key) =
          (entries.filter (fun kv => kv.1 != "Parent")).map Prod.fst
      ∧ (∀ rc ∈ out.calls, rc.listenersArg = [])
      ∧ (∀ rc ∈ out.calls, ∃ g, rc.parentArg = some g ∧ g.variant = var
          ∧ g.parent = some parent ∧ g.listeners = ls)
      ∧ (∃ f, out.result = some f ∧ f.listeners = ls) := by
  obtain ⟨f2, calls, htr, hkeys, hls, hpar, _, _, hl1, _⟩ :=
    transform_known_subtype rootT entries parent ls s var hSub hvar hnodup
  exact ⟨⟨some f2, calls, []⟩, htr, hkeys, hls, hpar, f2, rfl, hl1⟩

/-- Witness for the amended C2 on a concrete node and listener list. -/
theorem c2_child_transform_listeners_witness :
    ∃ out : TransformOut,
      transform (fun v _ _ => v)
          (.dict [("Type", .name "Font"), ("Subtype", .name "Type1"),
                  ("BaseFont", .name "Helvetica")]) .null [7] = .ok out
      ∧ out.calls.map (fun rc => rc.key) =
          ([("Type", PDFObject.name "Font"), ("Subtype", PDFObject.name "Type1"),
            ("BaseFont", PDFObject.name "Helvetica")].filter
              (fun kv => kv.1 != "Parent")).map Prod.fst
      ∧ (∀ rc ∈ out.calls, rc.listenersArg = [])
      ∧ (∀ rc ∈ out.calls, ∃ g, rc.parentArg = some g
          ∧ g.variant = FontVariant.type1
          ∧ g.parent = some PDFObject.null ∧ g.listeners = [7])
      ∧ (∃ f, out.result = some f ∧ f.listeners = [7]) :=
  c2_child_transform_listeners (fun v _ _ => v)
    [("Type", .name "Font"), ("Subtype", .name "Type1"),
     ("BaseFont", .name "Helvetica")] .null [7] "Type1" .type1
    rfl rfl (by simp)

/-- C5: on a successfully transformed font node, each non-`Parent` key is
visited exactly once in order; a key whose child transforms to a non-null
value ends up as an attribute holding exactly that value, and a key whose
child transforms to null is absent from the attributes. -/
theorem c5_attribute_roundtrip
    (rootT : PDFObject → Option TypedFont → List Nat → PDFObject)
    (entries : List (String × PDFObject)) (parent : PDFObject)
    (ls : List Nat) (s : String) (var : FontVariant)
    (hSub : dictLookup entries "Subtype" = some (.name s))
    (hvar : subtypeVariant s = some var)
    (hnodup : (entries.map Prod.fst).Nodup) :
    ∃ (out : TransformOut) (f2 : TypedFont),
      transform rootT (.dict entries) parent ls = .ok out
      ∧ out.result = some f2
      ∧ out.calls.map (fun rc => rc.key) =
          (entries.filter (fun kv => kv.1 != "Parent")).map Prod.fst
      ∧ (∀ rc ∈ out.calls,
          (¬rc.result.isNull →
            dictLookup f2.attrs rc.key = some rc.result)
          ∧ (rc.result.isNull → rc.key ∉ f2.attrs.map Prod.fst)) := by
  obtain ⟨f2, calls, htr, hkeys, _, _, _, _, _, hattrs⟩ :=
    transform_known_subtype rootT entries parent ls s var hSub hvar hnodup
  have hcallkeys : (calls.map (fun rc => rc.key)).Nodup := by
    rw [hkeys]
    have hsub : ((entries.filter (fun kv => kv.1 != "Parent")).map Prod.fst).Sublist
        (entries.map Prod.fst) :=
      (List.filter_sublist entries).map Prod.fst
    exact hnodup.sublist hsub
  have hattrKeys : f2.attrs.map Prod.fst =
      (calls.filter (fun rc => !rc.result.isNull)).map (fun rc => rc.key) := by
    rw [hattrs, List.map_map]
    rfl
  refine ⟨⟨some f2, calls, []⟩, f2, htr, rfl, hkeys, ?_⟩
  intro rc hrc
  constructor
  · intro hnn
    apply dictLookup_eq_some_of_mem
    · rw [hattrKeys]
      have hsub2 : ((calls.filter (fun rc => !rc.result.isNull)).map
          (fun rc => rc.key)).Sublist (calls.map (fun rc => rc.key)) :=
        (List.filter_sublist calls).map _
      exact hcallkeys.sublist hsub2
    · rw [hattrs]
      exact List.mem_map.mpr
        ⟨rc, List.mem_filter.mpr ⟨hrc, by simpa using hnn⟩, rfl⟩
  · intro hn hmem
    rw [hattrKeys] at hmem
    obtain ⟨rc2, hrc2, hkeq⟩ := List.mem_map.mp hmem
    have hrc2c : rc2 ∈ calls := (List.mem_filter.mp hrc2).1
    have hrc2n : ¬rc2.result.isNull := by
      have := (List.mem_filter.mp hrc2).2
      simpa using this
    have heq : rc2 = rc :=
      List.inj_on_of_nodup_map hcallkeys hrc2c hrc hkeq
    rw [heq] at hrc2n
    exact hrc2n hn

/-- Witness for C5 on a concrete node with one null-transforming child. -/
theorem c5_attribute_roundtrip_witness :
    ∃ (out : TransformOut) (f2 : TypedFont),
      transform (fun v _ _ => match v with | .name "Drop" => .null | _ => v)
          (.dict [("Subtype", .name "TrueType"), ("A", .name "Drop"),
                  ("B", .number 9)]) .null [] = .ok out
      ∧ out.result = some f2
      ∧ out.calls.map (fun rc => rc.key) =
          ([("Subtype", PDFObject.name "TrueType"), ("A", PDFObject.name "Drop"),
            ("B", PDFObject.number 9)].filter
              (fun kv => kv.1 != "Parent")).map Prod.fst
      ∧ (∀ rc ∈ out.calls,
          (¬rc.result.isNull →
            dictLookup f2.attrs rc.key = some rc.result)
          ∧ (rc.result.isNull → rc.key ∉ f2.attrs.map Prod.fst)) :=
  c5_attribute_roundtrip (fun v _ _ => match v with | .name "Drop" => .null | _ => v)
    [("Subtype", .name "TrueType"), ("A", .name "Drop"), ("B", .number 9)]
    .null [] "TrueType" .trueType rfl rfl (by simp)

/-- C10: a dictionary carrying `Type = Font` but no `Subtype` key is accepted
by `can_be_transformed`, yet `transform` raises on the unguarded `Subtype`
lookup before any sub-variant is selected — the transformer is not total on
the nodes its own dispatch predicate accepts. -/
theorem c10_missing_subtype_partiality
    (rootT : PDFObject → Option TypedFont → List Nat → PDFObject)
    (entries : List (String × PDFObject)) (parent : PDFObject) (ls : List Nat)
    (hType : dictLookup entries "Type" = some (.name "Font"))
    (hSub : dictLookup entries "Subtype" = none) :
    canBeTransformed (.dict entries) = true
    ∧ transform rootT (.dict entries) parent ls = .error .keyError := by
  constructor
  · simp only [canBeTransformed]
    rw [hType]
    rfl
  · simp only [transform]
    rw [hSub]

/-- Witness for C10 at the concrete node `{Type: Font}`. -/
theorem c10_missing_subtype_partiality_witness :
    canBeTransformed (.dict [("Type", .name "Font")]) = true
    ∧ transform (fun v _ _ => v) (.dict [("Type", .name "Font")]) .null [] =
        .error .keyError :=
  c10_missing_subtype_partiality (fun v _ _ => v) [("Type", .name "Font")]
    .null [] rfl rfl

/-- Witness for C7: two distinct fonts on a fresh page get `F1` then `F2`,
and re-registering returns the same name. -/
theorem c7_font_resource_registration_witness :
    (getFontResourceName 5 (getFontResourceName 5 (⟨none, []⟩ : Page Nat)).2 =
      getFontResourceName 5 (⟨none, []⟩ : Page Nat))
    ∧ getFontResourceName 5 (⟨some ⟨some []⟩, []⟩ : Page Nat) =
        (fontResName 1, ⟨some ⟨some [(fontResName 1, 5)]⟩, []⟩)
    ∧ ((getFontResourceName 5 (⟨some ⟨some []⟩, []⟩ : Page Nat)).1 = fontResName 1
        ∧ (getFontResourceName 6
            (getFontResourceName 5 (⟨some ⟨some []⟩, []⟩ : Page Nat)).2).1 =
            fontResName 2
        ∧ fontResName 1 ≠ fontResName 2)
    ∧ fontResName 1 = "F1" ∧ fontResName 2 = "F2" := by
  obtain ⟨h1, h2, h3⟩ :=
    c7_font_resource_registration (⟨none, []⟩ : Page Nat) [] [] 5 6
  refine ⟨h1, ?_, ?_, rfl, rfl⟩
  · have := h2 (by simp [canonicalFontKeys]) (by simp)
    simpa using this
  · have := h3 (by simp [canonicalFontKeys]) (by simp) (by simp) (by omega)
    simpa using this

end Spec2Proof
